import Mathlib

/-!
Verification of the dltool download script (src/dltool.py) against its
natural-language specification.

The development shallowly embeds the parts of the script the claims are
about:

* the filename normalizer, `re.sub(r'\.[(a-zA-Z0-9)]{1,3}\Z', '', name)`
  (dltool.py lines 143 and 229), as `normalizeName`;
* the reconciliation loop between wanted ROM names and the available
  listing (lines 237-241), as `reconcile`;
* one attempt of the `file_download` coroutine (lines 253-294), as
  `file_download` over an explicit environment (probe result, stream
  result, delivered byte count) and an explicit state (the shared
  `REQ_HEADERS` mapping, the local file, the `downloaded_roms` list);
* the `tenacity.retry` wrapper with its default, never-stopping policy
  (lines 249-252), as the fuel-indexed `retryRun`;
* the end-of-run accounting `not_downloaded` (line 313).
-/

/-- One character of the extension character class of the regex
`\.[(a-zA-Z0-9)]{1,3}\Z` at dltool.py lines 143/229: ASCII letters,
digits, and the two literal parentheses that appear inside the class. -/
def isSuffChar (c : Char) : Bool :=
  c.isAlphanum || c == '(' || c == ')'

/-- The substitution of the regex `\.[(a-zA-Z0-9)]{1,3}\Z`, acting on the
reversed character list.  A match is a dot followed by 1-3 class
characters ending the string; `re.sub` takes the leftmost match, which is
the longest such suffix, so the 3-character tail is tried first, then 2,
then 1.  Returns the reversed remaining characters, or `none` when the
regex does not match. -/
def stripRev : List Char → Option (List Char)
  | a :: b :: c :: d :: rest =>
    if d == '.' && isSuffChar a && isSuffChar b && isSuffChar c then some rest
    else if c == '.' && isSuffChar a && isSuffChar b then some (d :: rest)
    else if b == '.' && isSuffChar a then some (c :: d :: rest)
    else none
  | [a, b, c] =>
    if c == '.' && isSuffChar a && isSuffChar b then some []
    else if b == '.' && isSuffChar a then some [c]
    else none
  | [a, b] => if b == '.' && isSuffChar a then some [] else none
  | _ => none

/-- The name normalizer of dltool.py lines 143 and 229:
`re.sub(r'\.[(a-zA-Z0-9)]{1,3}\Z', '', file_name)`. -/
def normalizeName (s : String) : String :=
  match stripRev s.data.reverse with
  | some r => String.mk r.reverse
  | none => s

/-- Checker following the claim's wording: does the string end in a dot
followed by 1-3 alphanumeric characters?  (Strictly alphanumeric, the
class the spec describes; the source regex additionally accepts
parentheses.) -/
def hasAlnumExt (s : String) : Bool :=
  let r := s.data.reverse
  (decide ((r.take 1).length = 1) && (r.take 1).all Char.isAlphanum
      && decide ((r.drop 1).head? = some '.'))
    || (decide ((r.take 2).length = 2) && (r.take 2).all Char.isAlphanum
      && decide ((r.drop 2).head? = some '.'))
    || (decide ((r.take 3).length = 3) && (r.take 3).all Char.isAlphanum
      && decide ((r.drop 3).head? = some '.'))

/-- An entry of the `available_roms` mapping built at dltool.py line 231:
`{'name': rom_name, 'file': file_name, 'url': url}`. -/
structure Item where
  name : String
  file : String
  url : String
deriving DecidableEq

/-- The reconciliation loop of dltool.py lines 237-241: walk
`wanted_roms` in manifest order; a name present in `available_roms` is
appended to `wanted_files`, an absent one to `missing_roms`. -/
def reconcile : List String → (String → Option Item) → List Item × List String
  | [], _ => ([], [])
  | w :: ws, available =>
    let rest := reconcile ws available
    match available w with
    | some it => (it :: rest.1, rest.2)
    | none => (rest.1, w :: rest.2)

/-- The module-level `REQ_HEADERS` dictionary of dltool.py lines 31-34,
shared by every request. -/
def REQ_HEADERS : List (String × String) :=
  [("User-Agent", "Mozilla/5.0 (Windows NT 10.0; Win64; x64) AppleWebKit/537.36 (KHTML, like Gecko) Chrome/128.0.0.0 Safari/537.36"),
   ("Accept", "text/html,application/xhtml+xml,application/xml;q=0.9,image/avif,image/webp,image/apng,*/*;q=0.8,application/signed-exchange;v=b3;q=0.7")]

/-- Python dict assignment `headers[k] = v` on an insertion-ordered
mapping: replace the value in place when the key is present, append the
pair otherwise. -/
def setHeader (hs : List (String × String)) (k v : String) : List (String × String) :=
  if hs.any (fun p => p.1 == k) then hs.map (fun p => if p.1 == k then (k, v) else p)
  else hs ++ [(k, v)]

/-- The Range header value built at dltool.py line 270:
`f'bytes={local_size}-'`. -/
def rangeHeaderValue (localSize : Nat) : String :=
  "bytes=" ++ toString localSize ++ "-"

/-- `os.path.join(args.out, wanted_file['file'])` of dltool.py line 254
(on POSIX, with the trailing slash of the output directory already
stripped at lines 113-116). -/
def localPathOf (outDir : String) (item : Item) : String :=
  outDir ++ "/" ++ item.file

/-- The size the local file has after the chunk loop of dltool.py lines
275-279 finishes: opening with mode `'wb'` (when `local_size == 0`)
truncates, mode `'ab'` appends to the existing `local_size` bytes. -/
def writtenSize (localSize bytesDelivered : Nat) : Nat :=
  (if localSize == 0 then 0 else localSize) + bytesDelivered

/-- Outside world of one `file_download` attempt: the output directory,
the result of the HEAD size probe (`none` = error status at line 261),
whether the GET stream opened without error (line 272), and how many
bytes the stream delivered. -/
structure Env where
  outDir : String
  headSize : Option Nat
  streamOk : Bool
  bytesDelivered : Nat

/-- Mutable state one `file_download` attempt touches: the shared
module-level `REQ_HEADERS` mapping, the local file at
`outputDir/fileName` (`some n` = exists with size `n`, `none` = absent),
and the shared `downloaded_roms` list (line 247). -/
structure DLState where
  reqHeaders : List (String × String)
  localFile : Option Nat
  downloaded : List Item
deriving DecidableEq

/-- An HTTP or filesystem action the attempt performs, in order: the
HEAD probe (line 260), the streamed GET with the headers it carries
(line 271), and opening the local file for writing with or without
truncation (line 275). -/
inductive DLAction where
  | headReq (url : String)
  | getReq (url : String) (headers : List (String × String))
  | openWrite (path : String) (truncate : Bool)
deriving DecidableEq

/-- How one attempt ends: returning normally, or raising the bare
`Exception` that the `tenacity` wrapper treats as retryable. -/
inductive AttemptResult where
  | ok
  | raised
deriving DecidableEq

/-- Everything one attempt produces: the state it leaves behind, the
actions it performed, and whether it returned or raised. -/
structure AttemptOut where
  state : DLState
  actions : List DLAction
  result : AttemptResult

/-- The GET requests among a list of actions. -/
def getRequests (acts : List DLAction) : List DLAction :=
  acts.filter (fun a => match a with | DLAction.getReq _ _ => true | _ => false)

/-- One attempt of the `file_download` coroutine, dltool.py lines
253-294.  `local_size` is read from disk (line 255); the HEAD probe
either errors (raise, line 265) or yields the remote size; when
`local_size < remote_file_size` the code aliases the shared
`REQ_HEADERS`, sets its Range key to `bytes={local_size}-` (lines
269-270) and issues the GET with that very mapping; a failed stream
raises with the file untouched (line 287); a completed stream is
followed by the size check of line 281, deleting the file and raising on
mismatch; when `local_size > remote_file_size` the file is deleted and
the attempt raises (lines 288-291); otherwise (sizes equal, or the
download completed and verified) the item is appended to
`downloaded_roms` (line 294). -/
def file_download (env : Env) (item : Item) (st : DLState) : AttemptOut :=
  let localPath := localPathOf env.outDir item
  let localSize := st.localFile.getD 0
  match env.headSize with
  | none => ⟨st, [DLAction.headReq item.url], AttemptResult.raised⟩
  | some remoteSize =>
    if localSize < remoteSize then
      let headers := setHeader st.reqHeaders "Range" (rangeHeaderValue localSize)
      let st1 : DLState := { st with reqHeaders := headers }
      if env.streamOk then
        let acts := [DLAction.headReq item.url, DLAction.getReq item.url headers,
                     DLAction.openWrite localPath (localSize == 0)]
        let newSize := writtenSize localSize env.bytesDelivered
        if newSize != remoteSize then
          ⟨{ st1 with localFile := none }, acts, AttemptResult.raised⟩
        else
          ⟨{ st1 with localFile := some newSize, downloaded := st1.downloaded ++ [item] },
            acts, AttemptResult.ok⟩
      else
        ⟨st1, [DLAction.headReq item.url, DLAction.getReq item.url headers], AttemptResult.raised⟩
    else if localSize > remoteSize then
      ⟨{ st with localFile := none }, [DLAction.headReq item.url], AttemptResult.raised⟩
    else
      ⟨{ st with downloaded := st.downloaded ++ [item] },
        [DLAction.headReq item.url], AttemptResult.ok⟩

/-- The `tenacity.retry` wrapper of dltool.py lines 249-252.  It is
configured with only a `wait` policy; the default `stop` policy never
stops, so a raising attempt is always followed by another attempt.
`att n` is the result of the n-th attempt; the fuel bounds how many
attempts we observe: `some ok` = the wrapped call returned within that
many attempts, `none` = after that many attempts the wrapper is still
retrying.  No fuel value can produce a permanent-failure outcome because
the loop has no stop condition. -/
def retryRun (att : Nat → AttemptResult) : Nat → Option AttemptResult
  | 0 => none
  | fuel + 1 =>
    match att 0 with
    | AttemptResult.ok => some AttemptResult.ok
    | AttemptResult.raised => retryRun (fun n => att (n + 1)) fuel

/-- The end-of-run accounting of dltool.py line 313:
`not_downloaded = [rom for rom in wanted_files if rom not in downloaded_roms]`. -/
def not_downloaded (wanted_files downloaded_roms : List Item) : List Item :=
  wanted_files.filter (fun rom => decide (rom ∉ downloaded_roms))

/-- A concrete available item, used by witnesses. -/
def itemA : Item := ⟨"Game A", "Game A.zip", "https://myrient.erista.me/files/x/Game A.zip"⟩

/-- A second concrete available item, used by witnesses. -/
def itemC : Item := ⟨"Game C", "Game C.zip", "https://myrient.erista.me/files/x/Game C.zip"⟩

/-- A concrete available mapping holding `itemA` and `itemC`, used by
witnesses; mirrors the listing scenario of the spec. -/
def availableAC : String → Option Item := fun w =>
  if w = "Game A" then some itemA else if w = "Game C" then some itemC else none

/-- The initial state of a run: pristine `REQ_HEADERS`, no local file,
nothing downloaded. -/
def st0 : DLState := ⟨REQ_HEADERS, none, []⟩

/-- An environment for a fresh 5-byte download, used by concrete
theorems. -/
def envFresh : Env := ⟨"/data/roms", some 5, true, 5⟩

/-- A dot is not in the extension character class. -/
theorem isSuffChar_dot : isSuffChar '.' = false := by decide

/-- Reversing a list does not change whether all its characters satisfy a
predicate. -/
theorem all_reverse_eq {p : Char → Bool} (l : List Char) : l.reverse.all p = l.all p := by
  induction l with
  | nil => rfl
  | cons a l ih => simp [List.all_append, ih, Bool.and_comm]

/-- When the regex matches, the reversed input splits as 1-3 class
characters, a dot, and the remainder the substitution keeps. -/
theorem stripRev_some : ∀ {r rest : List Char}, stripRev r = some rest →
    ∃ t, r = t ++ '.' :: rest ∧ 1 ≤ t.length ∧ t.length ≤ 3 ∧ t.all isSuffChar = true
  | [], _, h => by simp [stripRev] at h
  | [a], _, h => by simp [stripRev] at h
  | [a, b], rest, h => by
    simp only [stripRev] at h
    split at h
    · next hc =>
      simp only [Bool.and_eq_true, beq_iff_eq] at hc
      obtain ⟨hb, ha⟩ := hc
      cases h
      exact ⟨[a], by simp [hb, ha]⟩
    · exact absurd h (by simp)
  | [a, b, c], rest, h => by
    simp only [stripRev] at h
    split at h
    · next hc =>
      simp only [Bool.and_eq_true, beq_iff_eq] at hc
      obtain ⟨⟨hcd, ha⟩, hb⟩ := hc
      cases h
      exact ⟨[a, b], by simp [hcd, ha, hb]⟩
    · split at h
      · next hc =>
        simp only [Bool.and_eq_true, beq_iff_eq] at hc
        obtain ⟨hb, ha⟩ := hc
        cases h
        exact ⟨[a], by simp [hb, ha]⟩
      · exact absurd h (by simp)
  | a :: b :: c :: d :: rs, rest, h => by
    simp only [stripRev] at h
    split at h
    · next hc =>
      simp only [Bool.and_eq_true, beq_iff_eq] at hc
      obtain ⟨⟨⟨hd, ha⟩, hb⟩, hcc⟩ := hc
      cases h
      exact ⟨[a, b, c], by simp [hd, ha, hb, hcc]⟩
    · split at h
      · next hc =>
        simp only [Bool.and_eq_true, beq_iff_eq] at hc
        obtain ⟨⟨hcd, ha⟩, hb⟩ := hc
        cases h
        exact ⟨[a, b], by simp [hcd, ha, hb]⟩
      · split at h
        · next hc =>
          simp only [Bool.and_eq_true, beq_iff_eq] at hc
          obtain ⟨hb, ha⟩ := hc
          cases h
          exact ⟨[a], by simp [hb, ha]⟩
        · exact absurd h (by simp)

/-- When the reversed input starts with 1-3 class characters followed by
a dot, the regex matches. -/
theorem stripRev_of_ext : ∀ (t v : List Char), 1 ≤ t.length → t.length ≤ 3 →
    t.all isSuffChar = true → ∃ res, stripRev (t ++ '.' :: v) = some res
  | [], _, h1, _, _ => by simp at h1
  | [x], v, _, _, hall => by
    simp only [List.all_cons, List.all_nil, Bool.and_true] at hall
    match v with
    | [] => exact ⟨[], by simp [stripRev, hall]⟩
    | [y] => exact ⟨[y], by simp [stripRev, hall, isSuffChar_dot]⟩
    | y :: z :: w => exact ⟨y :: z :: w, by simp [stripRev, hall, isSuffChar_dot]⟩
  | [x, y], v, _, _, hall => by
    simp only [List.all_cons, List.all_nil, Bool.and_true, Bool.and_eq_true] at hall
    obtain ⟨hx, hy⟩ := hall
    match v with
    | [] => exact ⟨[], by simp [stripRev, hx, hy]⟩
    | z :: w => exact ⟨z :: w, by simp [stripRev, hx, hy, isSuffChar_dot]⟩
  | [x, y, z], v, _, _, hall => by
    simp only [List.all_cons, List.all_nil, Bool.and_true, Bool.and_eq_true] at hall
    obtain ⟨hx, hy, hz⟩ := hall
    exact ⟨v, by simp [stripRev, hx, hy, hz]⟩
  | x :: y :: z :: w :: t, v, _, h3, _ => by simp at h3

example : normalizeName "Game A.zip" = "Game A" := by decide
example : normalizeName "a.(b)" = "a" := by decide
example : normalizeName "a.b.c" = "a.b" := by decide
example : normalizeName "abc" = "abc" := by decide
example : normalizeName "a.bcde" = "a.bcde" := by decide
example : normalizeName "a." = "a." := by decide
example : hasAlnumExt "a.(b)" = false := by decide
example : hasAlnumExt "Game A.zip" = true := by decide
example : reconcile ["Game A", "Game B", "Game C"] availableAC = ([itemA, itemC], ["Game B"]) := by decide
example : (file_download envFresh itemA st0).state.reqHeaders = REQ_HEADERS ++ [("Range", "bytes=0-")] := by decide
example : (file_download envFresh itemA st0).result = AttemptResult.ok := by decide
example : retryRun (fun _ => AttemptResult.raised) 5 = none := by decide

/-- C2, counterexample: the string "a.(b)" has no trailing dot-suffix of
1-3 alphanumeric characters (each candidate tail contains a
parenthesis), yet the normalizer does not return it unchanged: the
source regex class `[(a-zA-Z0-9)]` also accepts parentheses, so the
suffix ".(b)" is stripped. -/
theorem normalizeName_removes_paren_suffix :
    hasAlnumExt "a.(b)" = false ∧ normalizeName "a.(b)" = "a" ∧
      normalizeName "a.(b)" ≠ "a.(b)" := by
  refine ⟨by decide, by decide, by decide⟩

/-- C2 (amended): for every raw filename string, the normalizer removes
exactly one trailing suffix consisting of a dot followed by 1-3
characters drawn from the regex class `[(a-zA-Z0-9)]` (ASCII
alphanumerics and the two parentheses), and returns the input unchanged
when no such suffix exists. -/
theorem normalizeName_strips_one_class_suffix (s : String) :
    (∃ p t, s.data = p ++ '.' :: t ∧ 1 ≤ t.length ∧ t.length ≤ 3 ∧
        t.all isSuffChar = true ∧ (normalizeName s).data = p) ∨
    (normalizeName s = s ∧
      ∀ p t, s.data = p ++ '.' :: t → 1 ≤ t.length → t.length ≤ 3 →
        t.all isSuffChar = false) := by
  cases hm : stripRev s.data.reverse with
  | some rest =>
    left
    obtain ⟨t0, hr, h1, h3, hall⟩ := stripRev_some hm
    refine ⟨rest.reverse, t0.reverse, ?_, by simpa using h1, by simpa using h3,
      by rw [all_reverse_eq]; exact hall, ?_⟩
    · have hs : s.data = (s.data.reverse).reverse := (List.reverse_reverse _).symm
      rw [hs, hr]
      simp [List.reverse_append]
    · simp [normalizeName, hm]
  | none =>
    right
    refine ⟨by simp [normalizeName, hm], ?_⟩
    intro p t heq h1 h3
    cases hall : t.all isSuffChar with
    | false => rfl
    | true =>
      exfalso
      obtain ⟨res, hres⟩ := stripRev_of_ext t.reverse p.reverse
        (by simpa using h1) (by simpa using h3) (by rw [all_reverse_eq]; exact hall)
      have hm2 : stripRev (t.reverse ++ '.' :: p.reverse) = none := by
        have hrev : (p ++ '.' :: t).reverse = t.reverse ++ '.' :: p.reverse := by
          simp [List.reverse_append]
        rw [heq, hrev] at hm
        exact hm
      rw [hm2] at hres
      cases hres

/-- C9, counterexample: the normalizer is not idempotent on every input:
normalizing "a.b.c" gives "a.b", and normalizing again strips further to
"a". -/
theorem normalizeName_not_idempotent :
    normalizeName (normalizeName "a.b.c") ≠ normalizeName "a.b.c" := by decide

/-- C9 (amended, as the spec itself qualifies): the normalizer is
idempotent on already-normalized names: when `normalizeName x = x`,
normalizing twice equals normalizing once. -/
theorem normalizeName_idempotent_on_normalized (x : String)
    (h : normalizeName x = x) :
    normalizeName (normalizeName x) = normalizeName x := by simp only [h]

/-- Witness for C9's amended theorem at the already-normalized name
"Game A". -/
theorem normalizeName_idempotent_on_normalized_witness :
    normalizeName "Game A" = "Game A" ∧
      normalizeName (normalizeName "Game A") = normalizeName "Game A" :=
  ⟨by decide, normalizeName_idempotent_on_normalized "Game A" (by decide)⟩

/-- The missing output of reconciliation is exactly the wanted names the
availability lookup misses, in manifest order. -/
theorem reconcile_snd_eq (a : String → Option Item) :
    ∀ ws : List String, (reconcile ws a).2 = ws.filter (fun w => (a w).isNone)
  | [] => rfl
  | w :: ws => by
    cases haw : a w <;>
      simp [reconcile, haw, List.filter_cons, reconcile_snd_eq a ws]

/-- Under a name-coherent availability lookup, the canonical names of the
matched output are exactly the wanted names the lookup hits, in manifest
order. -/
theorem reconcile_fst_names (a : String → Option Item)
    (hname : ∀ w i, a w = some i → i.name = w) :
    ∀ ws : List String,
      (reconcile ws a).1.map Item.name = ws.filter (fun w => (a w).isSome)
  | [] => rfl
  | w :: ws => by
    cases haw : a w with
    | none => simp [reconcile, haw, List.filter_cons, reconcile_fst_names a hname ws]
    | some it =>
      simp [reconcile, haw, List.filter_cons, reconcile_fst_names a hname ws,
        hname w it haw]

/-- C6: reconciliation places each wanted name in exactly one of the
matched and missing outputs, the two output lengths sum to the number of
wanted names, and both outputs preserve manifest order (they are
sublists of the wanted sequence, reading matched items by their
canonical name). -/
theorem reconcile_partition_preserving_order (wanted : List String)
    (available : String → Option Item) (hw : wanted.Nodup)
    (hname : ∀ w i, available w = some i → i.name = w) :
    (reconcile wanted available).1.length + (reconcile wanted available).2.length
        = wanted.length ∧
    (∀ w ∈ wanted,
      (w ∈ (reconcile wanted available).1.map Item.name ∧
        w ∉ (reconcile wanted available).2) ∨
      (w ∉ (reconcile wanted available).1.map Item.name ∧
        w ∈ (reconcile wanted available).2)) ∧
    List.Sublist ((reconcile wanted available).1.map Item.name) wanted ∧
    List.Sublist (reconcile wanted available).2 wanted := by
  have hfst := reconcile_fst_names available hname wanted
  have hsnd := reconcile_snd_eq available wanted
  refine ⟨?_, ?_, ?_, ?_⟩
  · have hlen1 : (reconcile wanted available).1.length
        = (wanted.filter (fun w => (available w).isSome)).length := by
      rw [← List.length_map (reconcile wanted available).1 Item.name, hfst]
    have hcongr : wanted.filter (fun w => (available w).isNone)
        = wanted.filter (fun w => !(available w).isSome) := by
      apply List.filter_congr
      intro x _
      cases available x <;> rfl
    rw [hlen1, hsnd, hcongr]
    exact (List.length_eq_length_filter_add (fun w => (available w).isSome)).symm
  · intro w hwmem
    cases haw : available w with
    | some it =>
      left
      constructor
      · rw [hfst]
        exact List.mem_filter.mpr ⟨hwmem, by simp [haw]⟩
      · rw [hsnd]
        intro hmem
        have := (List.mem_filter.mp hmem).2
        simp [haw] at this
    | none =>
      right
      constructor
      · rw [hfst]
        intro hmem
        have := (List.mem_filter.mp hmem).2
        simp [haw] at this
      · rw [hsnd]
        exact List.mem_filter.mpr ⟨hwmem, by simp [haw]⟩
  · rw [hfst]
    exact List.filter_sublist wanted
  · rw [hsnd]
    exact List.filter_sublist wanted

/-- The concrete availability mapping of the witness is name-coherent. -/
theorem availableAC_names : ∀ w i, availableAC w = some i → i.name = w := by
  intro w i h
  unfold availableAC at h
  split at h
  · next hw => cases h; rw [hw]; rfl
  · split at h
    · next hw => cases h; rw [hw]; rfl
    · cases h

/-- Witness for C6's theorem at the spec's own scenario: wanted
{"Game A","Game B","Game C"} against a listing holding Game A and
Game C. -/
theorem reconcile_partition_preserving_order_witness :
    (["Game A", "Game B", "Game C"] : List String).Nodup ∧
    (∀ w i, availableAC w = some i → i.name = w) ∧
    ((reconcile ["Game A", "Game B", "Game C"] availableAC).1.length
        + (reconcile ["Game A", "Game B", "Game C"] availableAC).2.length
        = (["Game A", "Game B", "Game C"] : List String).length ∧
      (∀ w ∈ (["Game A", "Game B", "Game C"] : List String),
        (w ∈ (reconcile ["Game A", "Game B", "Game C"] availableAC).1.map Item.name ∧
          w ∉ (reconcile ["Game A", "Game B", "Game C"] availableAC).2) ∨
        (w ∉ (reconcile ["Game A", "Game B", "Game C"] availableAC).1.map Item.name ∧
          w ∈ (reconcile ["Game A", "Game B", "Game C"] availableAC).2)) ∧
      List.Sublist ((reconcile ["Game A", "Game B", "Game C"] availableAC).1.map Item.name)
        ["Game A", "Game B", "Game C"] ∧
      List.Sublist (reconcile ["Game A", "Game B", "Game C"] availableAC).2
        ["Game A", "Game B", "Game C"]) :=
  ⟨by decide, availableAC_names,
    reconcile_partition_preserving_order ["Game A", "Game B", "Game C"] availableAC
      (by decide) availableAC_names⟩

/-- Membership in the end-of-run complement list of dltool.py line 313. -/
theorem mem_not_downloaded {wanted d : List Item} {x : Item} :
    x ∈ not_downloaded wanted d ↔ x ∈ wanted ∧ x ∉ d := by
  simp [not_downloaded]

/-- Complementary filters of a list have lengths summing to its
length. -/
theorem length_filter_add_length_filter_not {α : Type} (l : List α) (p : α → Bool) :
    (l.filter p).length + (l.filter (fun x => !(p x))).length = l.length := by
  induction l with
  | nil => rfl
  | cons a l ih => cases h : p a <;> simp [List.filter_cons, h] <;> omega

/-- C3: on a completed run, with `downloaded_roms` holding each succeeded
item once and only items of the batch, the succeeded list and the
`not_downloaded` complement of line 313 partition the matched items:
their lengths sum to N and every matched item lies in exactly one of the
two, for any concurrency cap. -/
theorem engine_outcome_partition (C : Nat) (hC : 1 ≤ C) (wanted d : List Item)
    (hw : wanted.Nodup) (hd : d.Nodup) (hsub : ∀ x ∈ d, x ∈ wanted) :
    d.length + (not_downloaded wanted d).length = wanted.length ∧
    ∀ x ∈ wanted, (x ∈ d ∧ x ∉ not_downloaded wanted d) ∨
      (x ∉ d ∧ x ∈ not_downloaded wanted d) := by
  constructor
  · have hperm : (wanted.filter (fun x => decide (x ∈ d))).length = d.length := by
      have h1 : (wanted.filter (fun x => decide (x ∈ d))).Nodup := hw.filter _
      have hiff : ∀ a, a ∈ wanted.filter (fun x => decide (x ∈ d)) ↔ a ∈ d := by
        intro a
        simp only [List.mem_filter, decide_eq_true_eq]
        exact ⟨fun h => h.2, fun h => ⟨hsub a h, h⟩⟩
      exact ((List.perm_ext_iff_of_nodup h1 hd).mpr hiff).length_eq
    have hcompl := length_filter_add_length_filter_not wanted (fun x => decide (x ∈ d))
    have hnd : not_downloaded wanted d
        = wanted.filter (fun x => !(decide (x ∈ d))) := by
      apply List.filter_congr
      intro x _
      simp [decide_not]
    rw [hnd, ← hperm]
    omega
  · intro x hx
    by_cases hxd : x ∈ d
    · exact Or.inl ⟨hxd, fun hmem => (mem_not_downloaded.mp hmem).2 hxd⟩
    · exact Or.inr ⟨hxd, mem_not_downloaded.mpr ⟨hx, hxd⟩⟩

/-- Witness for C3's theorem: two matched items, one downloaded, cap 2. -/
theorem engine_outcome_partition_witness :
    1 ≤ 2 ∧ ([itemA, itemC] : List Item).Nodup ∧ ([itemC] : List Item).Nodup ∧
    (∀ x ∈ ([itemC] : List Item), x ∈ ([itemA, itemC] : List Item)) ∧
    (([itemC] : List Item).length
        + (not_downloaded [itemA, itemC] [itemC]).length
        = ([itemA, itemC] : List Item).length ∧
      ∀ x ∈ ([itemA, itemC] : List Item),
        (x ∈ ([itemC] : List Item) ∧ x ∉ not_downloaded [itemA, itemC] [itemC]) ∨
        (x ∉ ([itemC] : List Item) ∧ x ∈ not_downloaded [itemA, itemC] [itemC])) :=
  ⟨by decide, by decide, by decide, by decide,
    engine_outcome_partition 2 (by decide) [itemA, itemC] [itemC]
      (by decide) (by decide) (by decide)⟩

/-- A constantly-raising attempt keeps the default tenacity loop
retrying for ever: no observation bound ever sees it finish. -/
theorem retryRun_const_raised :
    ∀ fuel, retryRun (fun _ => AttemptResult.raised) fuel = none
  | 0 => rfl
  | fuel + 1 => retryRun_const_raised fuel

/-- C1 is refuted by the code: the `@retry` decorator at dltool.py line
249 sets only a `wait` policy and no `stop` policy, so for an item whose
every attempt fails (here: the HEAD size probe errors on each attempt),
the wrapper never stops: after any number of attempts it is still
retrying, and no permanent-failure outcome is ever produced. -/
theorem file_download_retry_never_stops (fuel : Nat) :
    retryRun
      (fun _ => (file_download ⟨"/data/roms", none, true, 0⟩ itemA st0).result)
      fuel = none := by
  have h : (fun _ : Nat =>
      (file_download ⟨"/data/roms", none, true, 0⟩ itemA st0).result)
      = fun _ => AttemptResult.raised := rfl
  rw [h]
  exact retryRun_const_raised fuel

/-- C4, counterexample: on a fresh download (no local file, remote size
5) the code does not issue a plain non-range GET: lines 269-271 always
set a Range header, here `bytes=0-`, on the one GET they issue. -/
theorem fresh_download_is_range_request :
    getRequests (file_download envFresh itemA st0).actions =
      [DLAction.getReq itemA.url (REQ_HEADERS ++ [("Range", "bytes=0-")])] ∧
    (REQ_HEADERS ++ [("Range", "bytes=0-")]).any (fun p => p.1 == "Range") = true :=
  ⟨by decide, by decide⟩

/-- C4 (amended): when the local file is absent or empty and the remote
size is positive, exactly one GET is issued, carrying the Range header
`bytes=0-` (a ranged request spanning the whole file), and when the
stream opens the local file at `outputDir/fileName` is opened in
create/truncate mode, so a fully delivered stream leaves exactly the
delivered bytes on disk. -/
theorem fresh_download_range_from_zero (env : Env) (item : Item) (st : DLState)
    (r : Nat) (h0 : st.localFile.getD 0 = 0) (hr : env.headSize = some r)
    (hpos : 0 < r) :
    getRequests (file_download env item st).actions =
      [DLAction.getReq item.url (setHeader st.reqHeaders "Range" (rangeHeaderValue 0))] ∧
    (env.streamOk = true →
      DLAction.openWrite (localPathOf env.outDir item) true
        ∈ (file_download env item st).actions) ∧
    (env.streamOk = true → env.bytesDelivered = r →
      (file_download env item st).state.localFile = some env.bytesDelivered) := by
  cases hstream : env.streamOk with
  | false =>
    refine ⟨?_, ?_, ?_⟩
    · simp [file_download, hr, h0, hstream, hpos, getRequests]
    · intro h; simp [hstream] at h
    · intro h; simp [hstream] at h
  | true =>
    refine ⟨?_, ?_, ?_⟩
    · by_cases hws : writtenSize 0 env.bytesDelivered = r <;>
        simp [file_download, hr, h0, hstream, hpos, hws, getRequests]
    · intro _
      by_cases hws : writtenSize 0 env.bytesDelivered = r <;>
        simp [file_download, hr, h0, hstream, hpos, hws]
    · intro _ hbytes
      simp [file_download, hr, h0, hstream, hpos, writtenSize, hbytes]

/-- Witness for C4's amended theorem: absent local file, remote size 5,
stream delivering 5 bytes. -/
theorem fresh_download_range_from_zero_witness :
    (st0.localFile.getD 0 = 0) ∧ (envFresh.headSize = some 5) ∧ (0 < 5) ∧
    (getRequests (file_download envFresh itemA st0).actions =
      [DLAction.getReq itemA.url (setHeader st0.reqHeaders "Range" (rangeHeaderValue 0))] ∧
    (envFresh.streamOk = true →
      DLAction.openWrite (localPathOf envFresh.outDir itemA) true
        ∈ (file_download envFresh itemA st0).actions) ∧
    (envFresh.streamOk = true → envFresh.bytesDelivered = 5 →
      (file_download envFresh itemA st0).state.localFile = some envFresh.bytesDelivered)) :=
  ⟨rfl, rfl, by decide, fresh_download_range_from_zero envFresh itemA st0 5 rfl rfl (by decide)⟩

/-- C5: when the local file holds 0 < n < remote bytes, exactly one GET
is issued, a byte-range request starting at n (header `bytes=n-`); when
the stream opens, the file is opened in append mode (no truncation, no
full re-download), and a fully delivered remainder leaves n plus the
delivered bytes on disk. -/
theorem resume_single_range_request (env : Env) (item : Item) (st : DLState)
    (r n : Nat) (hn : st.localFile = some n) (h0 : 0 < n)
    (hr : env.headSize = some r) (hlt : n < r) :
    getRequests (file_download env item st).actions =
      [DLAction.getReq item.url (setHeader st.reqHeaders "Range" (rangeHeaderValue n))] ∧
    (env.streamOk = true →
      DLAction.openWrite (localPathOf env.outDir item) false
        ∈ (file_download env item st).actions) ∧
    (env.streamOk = true → n + env.bytesDelivered = r →
      (file_download env item st).state.localFile = some (n + env.bytesDelivered)) := by
  have hls : st.localFile.getD 0 = n := by rw [hn]; rfl
  have hne : (n == 0) = false := by simp; omega
  cases hstream : env.streamOk with
  | false =>
    refine ⟨?_, ?_, ?_⟩
    · simp [file_download, hr, hls, hstream, hlt, getRequests]
    · intro h; simp [hstream] at h
    · intro h; simp [hstream] at h
  | true =>
    refine ⟨?_, ?_, ?_⟩
    · by_cases hws : writtenSize n env.bytesDelivered = r <;>
        simp [file_download, hr, hls, hstream, hlt, hws, getRequests]
    · intro _
      by_cases hws : writtenSize n env.bytesDelivered = r <;>
        simp [file_download, hr, hls, hstream, hlt, hne, hws]
    · intro _ hbytes
      simp [file_download, hr, hls, hstream, hlt, hne, writtenSize, hbytes]

/-- Witness for C5's theorem at the spec's own scenario: 500 of 1000
bytes present, the stream delivering the remaining 500. -/
theorem resume_single_range_request_witness :
    ((⟨REQ_HEADERS, some 500, []⟩ : DLState).localFile = some 500) ∧ (0 < 500) ∧
    ((⟨"/data/roms", some 1000, true, 500⟩ : Env).headSize = some 1000) ∧ (500 < 1000) ∧
    (getRequests (file_download ⟨"/data/roms", some 1000, true, 500⟩ itemA
        ⟨REQ_HEADERS, some 500, []⟩).actions =
      [DLAction.getReq itemA.url
        (setHeader (⟨REQ_HEADERS, some 500, []⟩ : DLState).reqHeaders "Range"
          (rangeHeaderValue 500))] ∧
    ((⟨"/data/roms", some 1000, true, 500⟩ : Env).streamOk = true →
      DLAction.openWrite
          (localPathOf (⟨"/data/roms", some 1000, true, 500⟩ : Env).outDir itemA) false
        ∈ (file_download ⟨"/data/roms", some 1000, true, 500⟩ itemA
            ⟨REQ_HEADERS, some 500, []⟩).actions) ∧
    ((⟨"/data/roms", some 1000, true, 500⟩ : Env).streamOk = true →
      500 + (⟨"/data/roms", some 1000, true, 500⟩ : Env).bytesDelivered = 1000 →
      (file_download ⟨"/data/roms", some 1000, true, 500⟩ itemA
          ⟨REQ_HEADERS, some 500, []⟩).state.localFile =
        some (500 + (⟨"/data/roms", some 1000, true, 500⟩ : Env).bytesDelivered))) :=
  ⟨rfl, by decide, rfl, by decide,
    resume_single_range_request ⟨"/data/roms", some 1000, true, 500⟩ itemA
      ⟨REQ_HEADERS, some 500, []⟩ 1000 500 rfl (by decide) rfl (by decide)⟩

/-- C7: when the stream completes but the written size differs from the
probed remote size, the attempt deletes the local file, raises a
retryable error, and the local size a following attempt would read
(dltool.py line 255) is 0. -/
theorem size_mismatch_deletes_local_file (env : Env) (item : Item) (st : DLState)
    (r : Nat) (hr : env.headSize = some r) (hlt : st.localFile.getD 0 < r)
    (hstream : env.streamOk = true)
    (hmm : writtenSize (st.localFile.getD 0) env.bytesDelivered ≠ r) :
    (file_download env item st).result = AttemptResult.raised ∧
    (file_download env item st).state.localFile = none ∧
    (file_download env item st).state.localFile.getD 0 = 0 := by
  have hbne : (writtenSize (st.localFile.getD 0) env.bytesDelivered != r) = true := by
    simp [hmm]
  simp [file_download, hr, hstream, hlt, hbne]

/-- Witness for C7's theorem: 2 of 10 bytes present, the stream
delivering only 4 more. -/
theorem size_mismatch_deletes_local_file_witness :
    ((⟨"/data/roms", some 10, true, 4⟩ : Env).headSize = some 10) ∧
    ((⟨REQ_HEADERS, some 2, []⟩ : DLState).localFile.getD 0 < 10) ∧
    ((⟨"/data/roms", some 10, true, 4⟩ : Env).streamOk = true) ∧
    (writtenSize ((⟨REQ_HEADERS, some 2, []⟩ : DLState).localFile.getD 0)
        (⟨"/data/roms", some 10, true, 4⟩ : Env).bytesDelivered ≠ 10) ∧
    ((file_download ⟨"/data/roms", some 10, true, 4⟩ itemA
        ⟨REQ_HEADERS, some 2, []⟩).result = AttemptResult.raised ∧
      (file_download ⟨"/data/roms", some 10, true, 4⟩ itemA
        ⟨REQ_HEADERS, some 2, []⟩).state.localFile = none ∧
      (file_download ⟨"/data/roms", some 10, true, 4⟩ itemA
        ⟨REQ_HEADERS, some 2, []⟩).state.localFile.getD 0 = 0) :=
  ⟨rfl, by decide, rfl, by decide,
    size_mismatch_deletes_local_file ⟨"/data/roms", some 10, true, 4⟩ itemA
      ⟨REQ_HEADERS, some 2, []⟩ 10 rfl (by decide) rfl (by decide)⟩

/-- C8 is refuted by the code: line 269 binds `headers = REQ_HEADERS` by
reference and line 270 assigns into it, so issuing one item's transfer
request mutates the shared module-level header mapping (a Range key is
appended), visible to every other request. -/
theorem range_header_mutates_shared_headers :
    (file_download envFresh itemA st0).state.reqHeaders ≠ REQ_HEADERS ∧
    (file_download envFresh itemA st0).state.reqHeaders
      = REQ_HEADERS ++ [("Range", "bytes=0-")] :=
  ⟨by decide, by decide⟩

/-- C10: when the local size equals the probed remote size (including
when both are 0), no GET is issued, the attempt returns normally, and
the item is appended to `downloaded_roms` exactly as a successful fresh
download appends it (line 294 is shared by both paths; the result value
is the same, with no separate skipped status). -/
theorem equal_sizes_skip_download (env : Env) (item : Item) (st : DLState)
    (r : Nat) (hr : env.headSize = some r) (hl : st.localFile.getD 0 = r) :
    (file_download env item st).result = AttemptResult.ok ∧
    getRequests (file_download env item st).actions = [] ∧
    (file_download env item st).state.downloaded = st.downloaded ++ [item] ∧
    (file_download env item st).result
      = (file_download ⟨env.outDir, some 1, true, 1⟩ item st0).result := by
  have h1 : ¬ (st.localFile.getD 0 < r) := by omega
  have h2 : ¬ (st.localFile.getD 0 > r) := by omega
  refine ⟨?_, ?_, ?_, ?_⟩ <;>
    simp [file_download, hr, h1, h2, getRequests, st0, writtenSize]

/-- Witness for C10's theorem in the both-sizes-zero case. -/
theorem equal_sizes_skip_download_witness :
    ((⟨"/data/roms", some 0, true, 0⟩ : Env).headSize = some 0) ∧
    (st0.localFile.getD 0 = 0) ∧
    ((file_download ⟨"/data/roms", some 0, true, 0⟩ itemA st0).result
        = AttemptResult.ok ∧
      getRequests (file_download ⟨"/data/roms", some 0, true, 0⟩ itemA st0).actions = [] ∧
      (file_download ⟨"/data/roms", some 0, true, 0⟩ itemA st0).state.downloaded
        = st0.downloaded ++ [itemA] ∧
      (file_download ⟨"/data/roms", some 0, true, 0⟩ itemA st0).result
        = (file_download ⟨(⟨"/data/roms", some 0, true, 0⟩ : Env).outDir, some 1, true, 1⟩
            itemA st0).result) :=
  ⟨rfl, rfl,
    equal_sizes_skip_download ⟨"/data/roms", some 0, true, 0⟩ itemA st0 0 rfl rfl⟩
